import Mathlib

/-!
Shallow embedding of the variable-lifecycle tracker core.  The repository
snapshot ships only the documentation (README, CHANGELOG, setup.py); the
Python implementation of the core is not present, so every operational
definition below is modelled from the specification text and marked as such.
-/

namespace VariableTracker

/-- Modelled from the spec: a deep, independent snapshot of an observed
runtime value (a representative domain), compared by structural (semantic)
equality, never identity.  The Python implementation of value capture is
missing from the snapshot. -/
inductive Value where
  | int : Int → Value
  | str : String → Value
  | bool : Bool → Value
deriving DecidableEq

/-- Modelled from the spec: `changeType` ranges over initialized, modified,
returned. -/
inductive ChangeType where
  | initialized
  | modified
  | returned
deriving DecidableEq

/-- Modelled from the spec (State Transition Detector, §4.2):
`classify(previous, current)`: no previous value recorded → `initialized`;
previous recorded and current differs under structural equality →
`modified`; previous recorded and equal → no event. -/
def classify (previous : Option Value) (current : Value) : Option ChangeType :=
  match previous with
  | none => some ChangeType.initialized
  | some p => if current = p then none else some ChangeType.modified

/-- Modelled from the spec (§3): one observed transition of a watched
variable: name, change type, value snapshot, and a sequence index that is
monotonic within the invocation. -/
structure LifecycleEvent where
  variableName : String
  changeType : ChangeType
  value : Value
  sequenceIndex : Nat
deriving DecidableEq

/-- Association-list lookup for the per-invocation variable table. -/
def lookupVar : List (String × Value) → String → Option Value
  | [], _ => none
  | (k, w) :: rest, n => if k = n then some w else lookupVar rest n

/-- Association-list update for the per-invocation variable table. -/
def updateVar : List (String × Value) → String → Value → List (String × Value)
  | [], n, v => [(n, v)]
  | (k, w) :: rest, n, v =>
      if k = n then (k, v) :: rest else (k, w) :: updateVar rest n v

/-- Modelled from the spec (§3): one call to a tracked callable: its
identifier, the last-observed value of each watched variable, and the
append-only ordered event sequence. -/
structure Invocation where
  invocationId : Nat
  variableStates : List (String × Value)
  events : List LifecycleEvent
deriving DecidableEq

/-- A freshly entered invocation: no variable states, no events. -/
def Invocation.new (id : Nat) : Invocation :=
  { invocationId := id, variableStates := [], events := [] }

/-- Modelled from the spec (§4.3, body of `onObserve`): classify the current
value against the last recorded one, append the resulting event (if any)
with the next sequence index, and update `variableStates`. -/
def Invocation.observe (inv : Invocation) (name : String) (v : Value) :
    Invocation :=
  match classify (lookupVar inv.variableStates name) v with
  | some ct =>
      { inv with
        events := inv.events ++ [⟨name, ct, v, inv.events.length⟩]
        variableStates := updateVar inv.variableStates name v }
  | none => { inv with variableStates := updateVar inv.variableStates name v }

/-- A sequence of observations applied to one invocation, in order. -/
def Invocation.observeAll (inv : Invocation) (obs : List (String × Value)) :
    Invocation :=
  obs.foldl (fun i p => i.observe p.1 p.2) inv

/-- Modelled from the spec (§4.2/§4.3): at function exit, when a return
target is supplied the synthetic `returned` event always fires, without
consulting prior state; on exception exit (no return value) nothing is
appended. -/
def Invocation.exitWith (inv : Invocation) (ret : Option (String × Value)) :
    Invocation :=
  match ret with
  | none => inv
  | some (name, v) =>
      { inv with
        events :=
          inv.events ++ [⟨name, ChangeType.returned, v, inv.events.length⟩] }

/-- Lookup in the live-invocation table. -/
def lookupLive : List (Nat × Invocation) → Nat → Option Invocation
  | [], _ => none
  | (k, inv) :: rest, id => if k = id then some inv else lookupLive rest id

/-- Replace the invocation stored under a given id. -/
def updateLive : List (Nat × Invocation) → Nat → Invocation →
    List (Nat × Invocation)
  | [], _, _ => []
  | (k, old) :: rest, id, inv =>
      if k = id then (k, inv) :: updateLive rest id inv
      else (k, old) :: updateLive rest id inv

/-- Remove the invocation stored under a given id. -/
def removeLive : List (Nat × Invocation) → Nat → List (Nat × Invocation)
  | [], _ => []
  | (k, inv) :: rest, id =>
      if k = id then removeLive rest id else (k, inv) :: removeLive rest id

/-- Modelled from the spec (Lifecycle Recorder, §4.3): live invocations
keyed by `invocationId`, plus the store of completed (sealed) invocations
awaiting `drain`. -/
structure Recorder where
  live : List (Nat × Invocation)
  completed : List Invocation
deriving DecidableEq

/-- The recorder before any invocation was entered. -/
def Recorder.init : Recorder := { live := [], completed := [] }

inductive RecorderError where
  | duplicateInvocation (id : Nat)
deriving DecidableEq

/-- Modelled from the spec (§4.3): `onEnter` registers a new live
invocation; it fails with a duplicate-invocation error when the id is
already live (defensive check). -/
def Recorder.onEnter (r : Recorder) (id : Nat) :
    Except RecorderError Recorder :=
  match lookupLive r.live id with
  | some _ => Except.error (RecorderError.duplicateInvocation id)
  | none => Except.ok { r with live := (id, Invocation.new id) :: r.live }

/-- Modelled from the spec (§4.3): `onObserve` is a silent no-op on an
unknown id; otherwise it runs the transition detector on the stored
invocation. -/
def Recorder.onObserve (r : Recorder) (id : Nat) (name : String)
    (v : Value) : Recorder :=
  match lookupLive r.live id with
  | none => r
  | some inv => { r with live := updateLive r.live id (inv.observe name v) }

/-- Modelled from the spec (§4.3): `onExit` is a silent no-op on an unknown
id; otherwise it seals the invocation, appending the synthetic `returned`
event when a return target is supplied (never on exception exit), and moves
it from live to completed storage. -/
def Recorder.onExit (r : Recorder) (id : Nat)
    (ret : Option (String × Value)) : Recorder :=
  match lookupLive r.live id with
  | none => r
  | some inv =>
      { live := removeLive r.live id
        completed := r.completed ++ [inv.exitWith ret] }

/-- Modelled from the spec (§4.3): `drain` returns all completed
invocations and clears the completed store, leaving live invocations
untouched. -/
def Recorder.drain (r : Recorder) : List Invocation × Recorder :=
  (r.completed, { r with completed := [] })

/-- Modelled from the spec (§3): which variables of a target to watch. -/
inductive VariableFilter where
  | all
  | names : List String → VariableFilter
deriving DecidableEq

/-- Modelled from the spec (§3): a configured target: a qualified-name path
of 1–4 trailing components plus a variable filter. -/
structure TargetSpec where
  qualifiedName : List String
  variableFilter : VariableFilter
deriving DecidableEq

/-- Modelled from the spec (Scope Matcher, §4.1): suffix-based matching: a
spec matches a location exactly when the location's trailing path segments
equal the spec's components. -/
def specMatches (spec : TargetSpec) (loc : List String) : Bool :=
  decide (spec.qualifiedName <:+ loc)

/-- Modelled from the spec (§4.1): among the configured specs, the matching
spec with the longest qualified path wins. -/
def bestMatch : List TargetSpec → List String → Option TargetSpec
  | [], _ => none
  | s :: rest, loc =>
      match bestMatch rest loc with
      | none => if specMatches s loc then some s else none
      | some b =>
          if specMatches s loc && b.qualifiedName.length < s.qualifiedName.length
          then some s else some b

inductive ConfigError where
  | ambiguousSpecs
deriving DecidableEq

/-- Modelled from the spec (§7): two configured specs of equal specificity
that can tie on some location are exactly duplicate qualified names; the
condition is detected at session start. -/
def hasAmbiguousSpecs : List TargetSpec → Bool
  | [] => false
  | s :: rest =>
      rest.any (fun t => decide (t.qualifiedName = s.qualifiedName)) ||
        hasAmbiguousSpecs rest

/-- Modelled from the spec (§6, README settings table): the resolved
configuration: root module path (as path segments), function targets,
class targets. -/
structure Config where
  modulePath : List String
  trackFunctions : List TargetSpec
  trackClasses : List TargetSpec
deriving DecidableEq

/-- Whether a location lies inside the configured root module path. -/
def inRootModule (root : List String) (loc : List String) : Bool :=
  decide (root <+: loc)

/-- Modelled from the spec (§6 and README settings table, example 3): a
location is tracked when it lies inside the root module path and matches
the configured selection, where empty `track_functions` and
`track_classes` together mean track everything in scope. -/
def shouldTrack (cfg : Config) (loc : List String) : Bool :=
  inRootModule cfg.modulePath loc &&
    (match cfg.trackFunctions, cfg.trackClasses with
     | [], [] => true
     | fs, cs => (bestMatch (fs ++ cs) loc).isSome)

/-- Modelled from the spec (§3): process-wide session state: the enabled
flag, the active configuration, and the recorder. -/
structure Session where
  started : Bool
  config : Config
  recorder : Recorder
deriving DecidableEq

/-- Modelled from the spec (§4.4/§7): `start` is a no-op when the session
is already started; otherwise ambiguous-spec configuration errors are
surfaced before anything is installed, then the session is enabled with
the new configuration. -/
def Session.start (s : Session) (cfg : Config) : Except ConfigError Session :=
  if s.started then Except.ok s
  else if hasAmbiguousSpecs (cfg.trackFunctions ++ cfg.trackClasses)
  then Except.error ConfigError.ambiguousSpecs
  else Except.ok { started := true, config := cfg, recorder := s.recorder }

/-- Modelled from the spec (§4.4): on stop, every still-live invocation is
force-sealed without a `returned` event rather than discarded. -/
def Recorder.sealAll (r : Recorder) : Recorder :=
  { live := [], completed := r.completed ++ r.live.map (fun p => p.2) }

/-- Modelled from the spec (§4.4/§7): `stop` is a no-op when the session is
already stopped; otherwise it disables the session and force-seals live
invocations. -/
def Session.stop (s : Session) : Session :=
  if s.started
  then { s with started := false, recorder := s.recorder.sealAll }
  else s

/-- The first event recorded for a given variable name, if any. -/
def firstEvtFor (evs : List LifecycleEvent) (name : String) :
    Option LifecycleEvent :=
  evs.find? (fun e => decide (e.variableName = name))

/-- Every variable's first event is `initialized`. -/
def FirstInitStrict (evs : List LifecycleEvent) : Prop :=
  ∀ name e, firstEvtFor evs name = some e →
    e.changeType = ChangeType.initialized

/-- Every variable's first event is `initialized`, except that the first
(and then only) event of the return pseudo-variable may be the final
synthetic `returned` one. -/
def FirstInitSealed (evs : List LifecycleEvent) : Prop :=
  ∀ name e, firstEvtFor evs name = some e →
    e.changeType = ChangeType.initialized ∨
      e.changeType = ChangeType.returned

/-- No `returned` event at all. -/
def NoReturned (evs : List LifecycleEvent) : Prop :=
  ∀ e ∈ evs, e.changeType ≠ ChangeType.returned

/-- Only the final event may be `returned`: hence at most one `returned`
event, and always in last position. -/
def ReturnedOnlyLast (evs : List LifecycleEvent) : Prop :=
  ∀ e ∈ evs.dropLast, e.changeType ≠ ChangeType.returned

/-- Sequence indices are exactly 0,1,2,…, hence strictly monotonic. -/
def SeqMono (evs : List LifecycleEvent) : Prop :=
  evs.map LifecycleEvent.sequenceIndex = List.range evs.length

/-- Every variable with a recorded state has at least one recorded event. -/
def StateEventLink (inv : Invocation) : Prop :=
  ∀ name v, lookupVar inv.variableStates name = some v →
    ∃ e ∈ inv.events, e.variableName = name

/-- Well-formedness of a live (not yet sealed) invocation. -/
def Invocation.WFlive (inv : Invocation) : Prop :=
  FirstInitStrict inv.events ∧ SeqMono inv.events ∧
    NoReturned inv.events ∧ StateEventLink inv

/-- Well-formedness of a sealed (completed) invocation. -/
def Invocation.WFsealed (inv : Invocation) : Prop :=
  FirstInitSealed inv.events ∧ SeqMono inv.events ∧
    ReturnedOnlyLast inv.events

/-- Well-formedness of the whole recorder state. -/
def Recorder.WF (r : Recorder) : Prop :=
  (∀ p ∈ r.live, Invocation.WFlive p.2) ∧
    (∀ inv ∈ r.completed, Invocation.WFsealed inv)

/-- Number of `returned` events in a sequence. -/
def countReturned (evs : List LifecycleEvent) : Nat :=
  (evs.filter (fun e => decide (e.changeType = ChangeType.returned))).length

/-! ### Helper lemmas about the association tables -/

theorem lookupVar_updateVar (st : List (String × Value)) (n n' : String)
    (v : Value) :
    lookupVar (updateVar st n v) n' =
      if n = n' then some v else lookupVar st n' := by
  induction st with
  | nil => by_cases h : n = n' <;> simp [updateVar, lookupVar, h]
  | cons p rest ih =>
      obtain ⟨k, w⟩ := p
      by_cases hkn : k = n
      · subst hkn
        by_cases h : k = n' <;> simp [updateVar, lookupVar, h]
      · by_cases h : k = n'
        · subst h
          have hne : ¬ n = k := fun e => hkn e.symm
          simp [updateVar, lookupVar, hkn, hne]
        · simp [updateVar, lookupVar, hkn, h, ih]

theorem updateVar_idem (st : List (String × Value)) (n : String) (v : Value) :
    updateVar (updateVar st n v) n v = updateVar st n v := by
  induction st with
  | nil => simp [updateVar]
  | cons p rest ih =>
      obtain ⟨k, w⟩ := p
      by_cases hkn : k = n
      · simp [updateVar, hkn]
      · simp [updateVar, hkn, ih]

theorem lookupLive_updateLive_ne (live : List (Nat × Invocation))
    (id id' : Nat) (inv : Invocation) (h : id ≠ id') :
    lookupLive (updateLive live id inv) id' = lookupLive live id' := by
  induction live with
  | nil => simp [updateLive, lookupLive]
  | cons p rest ih =>
      obtain ⟨k, old⟩ := p
      by_cases hk : k = id
      · subst hk
        simp [updateLive, lookupLive, h, ih]
      · by_cases hk' : k = id' <;>
          simp [updateLive, lookupLive, hk, hk', ih, Ne.symm h]

theorem lookupLive_removeLive_ne (live : List (Nat × Invocation))
    (id id' : Nat) (h : id ≠ id') :
    lookupLive (removeLive live id) id' = lookupLive live id' := by
  induction live with
  | nil => simp [removeLive, lookupLive]
  | cons p rest ih =>
      obtain ⟨k, inv⟩ := p
      by_cases hk : k = id
      · subst hk
        simp [removeLive, lookupLive, h, ih]
      · by_cases hk' : k = id' <;>
          simp [removeLive, lookupLive, hk, hk', ih, Ne.symm h]

theorem lookupLive_removeLive_self (live : List (Nat × Invocation))
    (id : Nat) :
    lookupLive (removeLive live id) id = none := by
  induction live with
  | nil => simp [removeLive, lookupLive]
  | cons p rest ih =>
      obtain ⟨k, inv⟩ := p
      by_cases hk : k = id <;> simp [removeLive, lookupLive, hk, ih]

theorem lookupLive_mem (live : List (Nat × Invocation)) (id : Nat)
    (inv : Invocation) (h : lookupLive live id = some inv) :
    (id, inv) ∈ live := by
  induction live with
  | nil => simp [lookupLive] at h
  | cons p rest ih =>
      obtain ⟨k, old⟩ := p
      by_cases hk : k = id
      · subst hk
        simp [lookupLive] at h
        subst h
        exact List.mem_cons_self _ _
      · simp [lookupLive, hk] at h
        exact List.mem_cons_of_mem _ (ih h)

theorem mem_updateLive (live : List (Nat × Invocation)) (id : Nat)
    (inv : Invocation) (p : Nat × Invocation)
    (h : p ∈ updateLive live id inv) :
    p.2 = inv ∨ p ∈ live := by
  induction live with
  | nil => simp [updateLive] at h
  | cons q rest ih =>
      obtain ⟨k, old⟩ := q
      by_cases hk : k = id
      · simp only [updateLive, if_pos hk] at h
        rcases List.mem_cons.mp h with rfl | h'
        · exact Or.inl rfl
        · rcases ih h' with h2 | h2
          · exact Or.inl h2
          · exact Or.inr (List.mem_cons_of_mem _ h2)
      · simp only [updateLive, if_neg hk] at h
        rcases List.mem_cons.mp h with rfl | h'
        · exact Or.inr (List.mem_cons_self _ _)
        · rcases ih h' with h2 | h2
          · exact Or.inl h2
          · exact Or.inr (List.mem_cons_of_mem _ h2)

theorem mem_removeLive (live : List (Nat × Invocation)) (id : Nat)
    (p : Nat × Invocation) (h : p ∈ removeLive live id) :
    p ∈ live := by
  induction live with
  | nil => simp [removeLive] at h
  | cons q rest ih =>
      obtain ⟨k, inv⟩ := q
      by_cases hk : k = id
      · simp only [removeLive, if_pos hk] at h
        exact List.mem_cons_of_mem _ (ih h)
      · simp only [removeLive, if_neg hk] at h
        rcases List.mem_cons.mp h with rfl | h'
        · exact List.mem_cons_self _ _
        · exact List.mem_cons_of_mem _ (ih h')

/-! ### Helper lemmas about the transition detector -/

theorem classify_prev_none (v : Value) :
    classify none v = some ChangeType.initialized := rfl

theorem classify_prev_eq (v : Value) : classify (some v) v = none := by
  simp [classify]

theorem classify_prev_ne (p v : Value) (h : v ≠ p) :
    classify (some p) v = some ChangeType.modified := by
  simp [classify, h]

theorem classify_eq_none (prev : Option Value) (v : Value)
    (h : classify prev v = none) : prev = some v := by
  cases prev with
  | none => simp [classify] at h
  | some p =>
      by_cases hv : v = p
      · subst hv; rfl
      · simp [classify, hv] at h

theorem classify_eq_modified (prev : Option Value) (v : Value)
    (h : classify prev v = some ChangeType.modified) :
    ∃ p, prev = some p := by
  cases prev with
  | none => exact absurd h (by simp [classify])
  | some p => exact ⟨p, rfl⟩

theorem classify_ne_returned (prev : Option Value) (v : Value)
    (ct : ChangeType) (h : classify prev v = some ct) :
    ct ≠ ChangeType.returned := by
  cases prev with
  | none =>
      simp [classify] at h
      subst h
      intro hc
      cases hc
  | some p =>
      by_cases hv : v = p
      · simp [classify, hv] at h
      · simp [classify, hv] at h
        subst h
        intro hc
        cases hc

/-! ### Helper lemmas about a single observation -/

theorem observe_variableStates (inv : Invocation) (n : String) (v : Value) :
    (inv.observe n v).variableStates = updateVar inv.variableStates n v := by
  unfold Invocation.observe
  cases classify (lookupVar inv.variableStates n) v <;> simp

theorem observe_events_of_none (inv : Invocation) (n : String) (v : Value)
    (h : classify (lookupVar inv.variableStates n) v = none) :
    (inv.observe n v).events = inv.events := by
  simp [Invocation.observe, h]

theorem observe_events_of_some (inv : Invocation) (n : String) (v : Value)
    (ct : ChangeType)
    (h : classify (lookupVar inv.variableStates n) v = some ct) :
    (inv.observe n v).events =
      inv.events ++ [⟨n, ct, v, inv.events.length⟩] := by
  simp [Invocation.observe, h]

theorem observe_of_lookup_self (inv : Invocation) (n : String) (v : Value)
    (h : lookupVar inv.variableStates n = some v) :
    inv.observe n v =
      { inv with variableStates := updateVar inv.variableStates n v } := by
  simp [Invocation.observe, h, classify]

theorem observe_idem (inv : Invocation) (n : String) (v : Value) :
    (inv.observe n v).observe n v = inv.observe n v := by
  have hst := observe_variableStates inv n v
  have hlook : lookupVar (inv.observe n v).variableStates n = some v := by
    rw [hst, lookupVar_updateVar]
    simp
  rw [observe_of_lookup_self _ n v hlook, hst, updateVar_idem, ← hst]

theorem observeAll_replicate (inv : Invocation) (n : String) (v : Value)
    (m : Nat) :
    (inv.observe n v).observeAll (List.replicate m (n, v)) =
      inv.observe n v := by
  induction m with
  | zero => rfl
  | succ m ih =>
      rw [List.replicate_succ]
      show ((inv.observe n v).observe n v).observeAll
        (List.replicate m (n, v)) = inv.observe n v
      rw [observe_idem]
      exact ih

theorem observe_events_length (inv : Invocation) (n : String) (v : Value) :
    (inv.observe n v).events.length ≤ inv.events.length + 1 := by
  cases h : classify (lookupVar inv.variableStates n) v with
  | none => simp [observe_events_of_none _ _ _ h]
  | some ct => simp [observe_events_of_some _ _ _ _ h]

/-! ### Helper lemmas about event sequences -/

theorem firstEvtFor_append_some (l r : List LifecycleEvent) (name : String)
    (e : LifecycleEvent) (h : firstEvtFor l name = some e) :
    firstEvtFor (l ++ r) name = some e := by
  unfold firstEvtFor at *
  simp [List.find?_append, h]

theorem firstEvtFor_append_none (l r : List LifecycleEvent) (name : String)
    (h : firstEvtFor l name = none) :
    firstEvtFor (l ++ r) name = firstEvtFor r name := by
  unfold firstEvtFor at *
  simp [List.find?_append, h]

theorem firstEvtFor_single (e : LifecycleEvent) (name : String) :
    firstEvtFor [e] name =
      if e.variableName = name then some e else none := by
  by_cases h : e.variableName = name <;> simp [firstEvtFor, h]

theorem firstEvtFor_isSome_of_mem (evs : List LifecycleEvent)
    (name : String) (e : LifecycleEvent) (he : e ∈ evs)
    (hname : e.variableName = name) :
    ∃ e', firstEvtFor evs name = some e' := by
  induction evs with
  | nil => simp at he
  | cons a rest ih =>
      by_cases ha : a.variableName = name
      · exact ⟨a, by simp [firstEvtFor, ha]⟩
      · rcases List.mem_cons.mp he with rfl | hrest
        · exact absurd hname ha
        · obtain ⟨e', h'⟩ := ih hrest
          refine ⟨e', ?_⟩
          unfold firstEvtFor at h' ⊢
          rw [List.find?_cons_of_neg]
          · exact h'
          · simp [ha]

theorem seqMono_append (evs : List LifecycleEvent) (n : String)
    (ct : ChangeType) (v : Value) (h : SeqMono evs) :
    SeqMono (evs ++ [⟨n, ct, v, evs.length⟩]) := by
  unfold SeqMono at *
  simp [h, List.range_succ]

theorem countReturned_eq_zero (evs : List LifecycleEvent)
    (h : NoReturned evs) : countReturned evs = 0 := by
  unfold countReturned
  rw [List.length_eq_zero, List.filter_eq_nil_iff]
  intro e he
  simpa using h e he

theorem countReturned_append_ret (evs : List LifecycleEvent) (n : String)
    (v : Value) (i : Nat) :
    countReturned (evs ++ [⟨n, ChangeType.returned, v, i⟩]) =
      countReturned evs + 1 := by
  unfold countReturned
  simp [List.filter_append]

theorem returnedOnlyLast_of_noReturned (evs : List LifecycleEvent)
    (h : NoReturned evs) : ReturnedOnlyLast evs := by
  intro e he
  exact h e (List.dropLast_subset _ he)

theorem returnedOnlyLast_append (evs : List LifecycleEvent)
    (e : LifecycleEvent) (h : NoReturned evs) :
    ReturnedOnlyLast (evs ++ [e]) := by
  intro e' he'
  simp only [List.dropLast_concat] at he'
  exact h e' he'

theorem countReturned_le_one (evs : List LifecycleEvent)
    (h : ReturnedOnlyLast evs) : countReturned evs ≤ 1 := by
  induction evs with
  | nil => simp [countReturned]
  | cons a rest ih =>
      cases rest with
      | nil =>
          by_cases ha : a.changeType = ChangeType.returned <;>
            simp [countReturned, ha]
      | cons b rest' =>
          have ha : a.changeType ≠ ChangeType.returned := by
            apply h
            simp [List.dropLast_cons₂]
          have h' : ReturnedOnlyLast (b :: rest') := by
            intro e he
            apply h
            simp only [List.dropLast_cons₂, List.mem_cons]
            exact Or.inr he
          have := ih h'
          simpa [countReturned, List.filter_cons, ha] using this

/-! ### Preservation of the lifecycle invariants -/

theorem WFlive_new (id : Nat) : (Invocation.new id).WFlive := by
  refine ⟨?_, ?_, ?_, ?_⟩
  · intro name e he
    simp [Invocation.new, firstEvtFor] at he
  · simp [Invocation.new, SeqMono]
  · intro e he
    simp [Invocation.new] at he
  · intro name v hv
    simp [Invocation.new, lookupVar] at hv

theorem WFlive_observe (inv : Invocation) (n : String) (v : Value)
    (h : inv.WFlive) : (inv.observe n v).WFlive := by
  obtain ⟨hfi, hsm, hnr, hlink⟩ := h
  have hst := observe_variableStates inv n v
  cases hc : classify (lookupVar inv.variableStates n) v with
  | none =>
      have hprev : lookupVar inv.variableStates n = some v :=
        classify_eq_none _ _ hc
      have hev := observe_events_of_none inv n v hc
      refine ⟨?_, ?_, ?_, ?_⟩
      · intro name e he
        exact hfi name e (by rwa [hev] at he)
      · unfold SeqMono at hsm ⊢
        rw [hev]
        exact hsm
      · intro e he
        exact hnr e (by rwa [hev] at he)
      · intro name w hw
        rw [hst, lookupVar_updateVar] at hw
        by_cases hnm : n = name
        · subst hnm
          obtain ⟨e, he, hen⟩ := hlink n v hprev
          exact ⟨e, by rw [hev]; exact he, hen⟩
        · rw [if_neg hnm] at hw
          obtain ⟨e, he, hen⟩ := hlink name w hw
          exact ⟨e, by rw [hev]; exact he, hen⟩
  | some ct =>
      have hev := observe_events_of_some inv n v ct hc
      have hctnr : ct ≠ ChangeType.returned := classify_ne_returned _ _ _ hc
      refine ⟨?_, ?_, ?_, ?_⟩
      · intro name e he
        rw [hev] at he
        cases hfst : firstEvtFor inv.events name with
        | some e' =>
            rw [firstEvtFor_append_some _ _ _ _ hfst] at he
            injection he with he'
            exact he' ▸ hfi name e' hfst
        | none =>
            rw [firstEvtFor_append_none _ _ _ hfst, firstEvtFor_single] at he
            by_cases hnm :
                (LifecycleEvent.mk n ct v inv.events.length).variableName =
                  name
            · rw [if_pos hnm] at he
              injection he with he'
              subst he'
              cases ct with
              | initialized => rfl
              | returned => exact absurd rfl hctnr
              | modified =>
                  obtain ⟨p, hp⟩ := classify_eq_modified _ _ hc
                  obtain ⟨e0, he0, hen0⟩ := hlink n p hp
                  obtain ⟨e1, h1⟩ :=
                    firstEvtFor_isSome_of_mem inv.events name e0 he0
                      (by simpa using hnm ▸ hen0)
                  rw [h1] at hfst
                  cases hfst
            · rw [if_neg hnm] at he
              cases he
      · rw [hev]
        exact seqMono_append _ _ _ _ hsm
      · intro e he
        rw [hev] at he
        rcases List.mem_append.mp he with h2 | h2
        · exact hnr e h2
        · rcases List.mem_singleton.mp h2 with rfl
          exact hctnr
      · intro name w hw
        rw [hst, lookupVar_updateVar] at hw
        by_cases hnm : n = name
        · subst hnm
          refine ⟨LifecycleEvent.mk n ct v inv.events.length, ?_, rfl⟩
          rw [hev]
          exact List.mem_append_right _ (List.mem_singleton_self _)
        · rw [if_neg hnm] at hw
          obtain ⟨e, he, hen⟩ := hlink name w hw
          exact ⟨e, by rw [hev]; exact List.mem_append_left _ he, hen⟩

theorem WFsealed_exitWith (inv : Invocation) (ret : Option (String × Value))
    (h : inv.WFlive) : (inv.exitWith ret).WFsealed := by
  obtain ⟨hfi, hsm, hnr, _⟩ := h
  cases ret with
  | none =>
      exact ⟨fun name e he => Or.inl (hfi name e he), hsm,
        returnedOnlyLast_of_noReturned _ hnr⟩
  | some p =>
      obtain ⟨n, v⟩ := p
      have hev : (inv.exitWith (some (n, v))).events =
          inv.events ++
            [LifecycleEvent.mk n ChangeType.returned v inv.events.length] :=
        rfl
      refine ⟨?_, ?_, ?_⟩
      · intro name e he
        rw [hev] at he
        cases hfst : firstEvtFor inv.events name with
        | some e' =>
            rw [firstEvtFor_append_some _ _ _ _ hfst] at he
            injection he with he'
            exact Or.inl (he' ▸ hfi name e' hfst)
        | none =>
            rw [firstEvtFor_append_none _ _ _ hfst, firstEvtFor_single] at he
            by_cases hnm :
                (LifecycleEvent.mk n ChangeType.returned v
                  inv.events.length).variableName = name
            · rw [if_pos hnm] at he
              injection he with he'
              subst he'
              exact Or.inr rfl
            · rw [if_neg hnm] at he
              cases he
      · rw [hev]
        exact seqMono_append _ _ _ _ hsm
      · rw [hev]
        exact returnedOnlyLast_append _ _ hnr

theorem recorderWF_init : Recorder.init.WF := by
  constructor
  · intro p hp
    simp [Recorder.init] at hp
  · intro inv hinv
    simp [Recorder.init] at hinv

theorem recorderWF_onEnter (r : Recorder) (id : Nat) (r' : Recorder)
    (hwf : r.WF) (h : r.onEnter id = Except.ok r') : r'.WF := by
  unfold Recorder.onEnter at h
  cases hl : lookupLive r.live id with
  | some inv =>
      rw [hl] at h
      cases h
  | none =>
      rw [hl] at h
      injection h with h'
      subst h'
      constructor
      · intro p hp
        rcases List.mem_cons.mp hp with rfl | hp'
        · exact WFlive_new id
        · exact hwf.1 p hp'
      · exact hwf.2

theorem recorderWF_onObserve (r : Recorder) (id : Nat) (n : String)
    (v : Value) (hwf : r.WF) : (r.onObserve id n v).WF := by
  unfold Recorder.onObserve
  cases hl : lookupLive r.live id with
  | none => exact hwf
  | some inv =>
      constructor
      · intro p hp
        rcases mem_updateLive _ _ _ _ hp with h2 | h2
        · rw [h2]
          exact WFlive_observe inv n v (hwf.1 _ (lookupLive_mem _ _ _ hl))
        · exact hwf.1 p h2
      · exact hwf.2

theorem recorderWF_onExit (r : Recorder) (id : Nat)
    (ret : Option (String × Value)) (hwf : r.WF) : (r.onExit id ret).WF := by
  unfold Recorder.onExit
  cases hl : lookupLive r.live id with
  | none => exact hwf
  | some inv =>
      constructor
      · intro p hp
        exact hwf.1 p (mem_removeLive _ _ _ hp)
      · intro i hi
        rcases List.mem_append.mp hi with h2 | h2
        · exact hwf.2 i h2
        · rcases List.mem_singleton.mp h2 with rfl
          exact WFsealed_exitWith inv ret (hwf.1 _ (lookupLive_mem _ _ _ hl))

theorem seqMono_pairwise (evs : List LifecycleEvent) (h : SeqMono evs) :
    List.Pairwise (fun a b => a < b)
      (evs.map LifecycleEvent.sequenceIndex) := by
  rw [h]
  exact List.pairwise_lt_range _

/-! ### Helper lemmas about the scope matcher -/

theorem bestMatch_none (specs : List TargetSpec) (loc : List String)
    (h : bestMatch specs loc = none) :
    ∀ s ∈ specs, specMatches s loc = false := by
  induction specs with
  | nil =>
      intro s hs
      simp at hs
  | cons a rest ih =>
      intro s hs
      rw [bestMatch] at h
      revert h
      cases hb : bestMatch rest loc with
      | none =>
          intro h
          change (if specMatches a loc then some a else none) = none at h
          by_cases ha : specMatches a loc
          · rw [if_pos ha] at h
            cases h
          · rcases List.mem_cons.mp hs with rfl | hs'
            · simpa using ha
            · exact ih hb s hs'
      | some b =>
          intro h
          revert h
          change (if
              (specMatches a loc &&
                decide
                  (b.qualifiedName.length < a.qualifiedName.length)) = true
            then some a else some b) = none → _
          split
          · intro h; cases h
          · intro h; cases h

theorem bestMatch_sound (specs : List TargetSpec) (loc : List String)
    (b : TargetSpec) (h : bestMatch specs loc = some b) :
    b ∈ specs ∧ specMatches b loc = true ∧
      ∀ s ∈ specs, specMatches s loc = true →
        s.qualifiedName.length ≤ b.qualifiedName.length := by
  induction specs generalizing b with
  | nil => simp [bestMatch] at h
  | cons a rest ih =>
      rw [bestMatch] at h
      revert h
      cases hb : bestMatch rest loc with
      | none =>
          intro h
          change (if specMatches a loc then some a else none) = some b at h
          by_cases ha : specMatches a loc
          · rw [if_pos ha] at h
            injection h with h'
            subst h'
            refine ⟨List.mem_cons_self _ _, ha, ?_⟩
            intro s hs hms
            rcases List.mem_cons.mp hs with rfl | hs'
            · exact le_refl _
            · rw [bestMatch_none rest loc hb s hs'] at hms
              cases hms
          · rw [if_neg ha] at h
            cases h
      | some b' =>
          intro h
          obtain ⟨hmem', hmatch', hmax'⟩ := ih b' hb
          revert h
          change (if
              (specMatches a loc &&
                decide
                  (b'.qualifiedName.length < a.qualifiedName.length)) = true
            then some a else some b') = some b → _
          by_cases hcond :
              (specMatches a loc &&
                decide
                  (b'.qualifiedName.length < a.qualifiedName.length)) = true
          · rw [if_pos hcond]
            intro h
            injection h with h'
            subst h'
            rw [Bool.and_eq_true] at hcond
            have hlt : b'.qualifiedName.length < a.qualifiedName.length :=
              of_decide_eq_true hcond.2
            refine ⟨List.mem_cons_self _ _, hcond.1, ?_⟩
            intro s hs hms
            rcases List.mem_cons.mp hs with hsa | hs'
            · subst hsa
              exact le_refl _
            · exact le_trans (hmax' s hs' hms) (le_of_lt hlt)
          · rw [if_neg hcond]
            intro h
            injection h with h'
            subst h'
            refine ⟨List.mem_cons_of_mem _ hmem', hmatch', ?_⟩
            intro s hs hms
            rcases List.mem_cons.mp hs with hsa | hs'
            · subst hsa
              by_cases hlt : b'.qualifiedName.length < s.qualifiedName.length
              · refine absurd ?_ hcond
                rw [Bool.and_eq_true]
                exact ⟨hms, decide_eq_true hlt⟩
              · exact le_of_not_lt hlt
            · exact hmax' s hs' hms

/-! ### Claim theorems -/

/-- C1: `classify(previous, current)` emits `initialized` with value =
current when no previous value is recorded, emits `modified` when a
previous value is recorded and the current value differs under structural
equality, and emits no event when the previous value equals the current
one; hence any run of identical consecutive observations of a variable
within one invocation produces at most one event. -/
theorem classify_transitions_and_idempotent_pruning :
    (∀ v : Value, classify none v = some ChangeType.initialized) ∧
    (∀ p v : Value, v ≠ p →
      classify (some p) v = some ChangeType.modified) ∧
    (∀ v : Value, classify (some v) v = none) ∧
    (∀ (inv : Invocation) (name : String) (v : Value) (m : Nat),
      (inv.observeAll (List.replicate m (name, v))).events.length ≤
        inv.events.length + 1) := by
  refine ⟨classify_prev_none, classify_prev_ne, classify_prev_eq, ?_⟩
  intro inv name v m
  cases m with
  | zero => exact Nat.le_succ _
  | succ m =>
      rw [List.replicate_succ]
      show ((inv.observe name v).observeAll
        (List.replicate m (name, v))).events.length ≤ _
      rw [observeAll_replicate]
      exact observe_events_length inv name v

/-- Witness for C1 at concrete values: an observation of `10` over a
recorded previous value `0` is classified as `modified`. -/
theorem classify_transitions_and_idempotent_pruning_witness :
    classify (some (Value.int 0)) (Value.int 10) =
      some ChangeType.modified :=
  classify_transitions_and_idempotent_pruning.2.1 (Value.int 0)
    (Value.int 10) (by decide)

/-- C2: the recorder invariant — every variable's first recorded event is
`initialized` (the synthetic `returned` event of the return pseudo-variable
being the one exception, when it is that variable's sole event), `returned`
events only ever occur in last position and at most once per invocation,
and sequence indices are strictly monotonic — holds initially and is
preserved by `onEnter`, `onObserve` and `onExit`. -/
theorem lifecycle_invariants_preserved :
    Recorder.init.WF ∧
    (∀ (r : Recorder) (id : Nat) (r' : Recorder),
      r.WF → r.onEnter id = Except.ok r' → r'.WF) ∧
    (∀ (r : Recorder) (id : Nat) (name : String) (v : Value),
      r.WF → (r.onObserve id name v).WF) ∧
    (∀ (r : Recorder) (id : Nat) (ret : Option (String × Value)),
      r.WF → (r.onExit id ret).WF) ∧
    (∀ r : Recorder, r.WF → ∀ inv ∈ r.completed,
      FirstInitSealed inv.events ∧ ReturnedOnlyLast inv.events ∧
        countReturned inv.events ≤ 1 ∧
        List.Pairwise (fun a b => a < b)
          (inv.events.map LifecycleEvent.sequenceIndex)) :=
  ⟨recorderWF_init,
   recorderWF_onEnter,
   recorderWF_onObserve,
   recorderWF_onExit,
   fun _ hwf inv hinv =>
     ⟨(hwf.2 inv hinv).1,
      (hwf.2 inv hinv).2.2,
      countReturned_le_one _ (hwf.2 inv hinv).2.2,
      seqMono_pairwise _ (hwf.2 inv hinv).2.1⟩⟩

/-- Witness for C2: entering invocation 1 on the initial recorder yields a
well-formed recorder state. -/
theorem lifecycle_invariants_preserved_witness :
    Recorder.WF { live := [(1, Invocation.new 1)], completed := [] } :=
  lifecycle_invariants_preserved.2.1 Recorder.init 1
    { live := [(1, Invocation.new 1)], completed := [] }
    lifecycle_invariants_preserved.1 rfl

/-- C3: for the concrete run where variable `total` is observed as 0, then
10, then 30, and the invocation exits returning 30 through `total`, the
recorded event sequence is exactly
[initialized:0, modified:10, modified:30, returned:30]. -/
theorem total_example_trace_exact :
    Recorder.init.onEnter 1 =
      Except.ok { live := [(1, Invocation.new 1)], completed := [] } ∧
    ((((({ live := [(1, Invocation.new 1)],
            completed := [] } : Recorder).onObserve 1 "total" (Value.int 0)
        ).onObserve 1 "total" (Value.int 10)
        ).onObserve 1 "total" (Value.int 30)
        ).onExit 1 (some ("total", Value.int 30))).completed =
      [{ invocationId := 1
         variableStates := [("total", Value.int 30)]
         events :=
           [⟨"total", ChangeType.initialized, Value.int 0, 0⟩,
            ⟨"total", ChangeType.modified, Value.int 10, 1⟩,
            ⟨"total", ChangeType.modified, Value.int 30, 2⟩,
            ⟨"total", ChangeType.returned, Value.int 30, 3⟩] }] :=
  ⟨rfl, by decide⟩

/-- C4: scope matching is suffix-based over the dot-joined path — a spec
matches a location exactly when the location's trailing segments equal
the spec's components; `bestMatch` returns a matching spec of maximal
specificity; two specs of equal specificity matching the same location
necessarily have the same qualified name (a genuine tie is a duplicate);
and an ambiguous configuration is surfaced as an error at session start. -/
theorem suffix_matching_longest_wins :
    (∀ (spec : TargetSpec) (loc : List String),
      specMatches spec loc = true ↔ spec.qualifiedName <:+ loc) ∧
    (∀ (specs : List TargetSpec) (loc : List String) (b : TargetSpec),
      bestMatch specs loc = some b →
        b ∈ specs ∧ specMatches b loc = true ∧
          ∀ s ∈ specs, specMatches s loc = true →
            s.qualifiedName.length ≤ b.qualifiedName.length) ∧
    (∀ (s₁ s₂ : TargetSpec) (loc : List String),
      specMatches s₁ loc = true → specMatches s₂ loc = true →
      s₁.qualifiedName.length = s₂.qualifiedName.length →
      s₁.qualifiedName = s₂.qualifiedName) ∧
    (∀ (s : Session) (cfg : Config),
      s.started = false →
      hasAmbiguousSpecs (cfg.trackFunctions ++ cfg.trackClasses) = true →
      s.start cfg = Except.error ConfigError.ambiguousSpecs) := by
  refine ⟨?_, bestMatch_sound, ?_, ?_⟩
  · intro spec loc
    simp [specMatches]
  · intro s₁ s₂ loc h1 h2 hlen
    have g1 : s₁.qualifiedName <:+ loc := by simpa [specMatches] using h1
    have g2 : s₂.qualifiedName <:+ loc := by simpa [specMatches] using h2
    obtain ⟨t1, e1⟩ := g1
    obtain ⟨t2, e2⟩ := g2
    rw [← e1] at e2
    exact ((List.append_inj' e2 hlen.symm).2).symm
  · intro s cfg hs hamb
    simp [Session.start, hs, hamb]

/-- Witness for C4: spec `Foo.bar` matches a location regardless of its
module and file prefix, and starting a stopped session on a configuration
with two identical specs is rejected as ambiguous. -/
theorem suffix_matching_longest_wins_witness :
    specMatches
      { qualifiedName := ["Foo", "bar"],
        variableFilter := VariableFilter.all }
      ["pkg", "mod", "Foo", "bar"] = true ∧
    Session.start
      { started := false,
        config := { modulePath := [], trackFunctions := [],
                    trackClasses := [] },
        recorder := Recorder.init }
      { modulePath := ["python"],
        trackFunctions :=
          [{ qualifiedName := ["f"], variableFilter := VariableFilter.all },
           { qualifiedName := ["f"], variableFilter := VariableFilter.all }],
        trackClasses := [] } =
      Except.error ConfigError.ambiguousSpecs :=
  ⟨(suffix_matching_longest_wins.1 _ _).mpr (by decide),
   suffix_matching_longest_wins.2.2.2 _ _ rfl (by decide)⟩

/-- C5: an invocation that exits normally with a return target ends with
exactly one `returned` event carrying the returned value, appended
unconditionally; an invocation that exits by exception is still sealed
with exactly its accumulated events and no `returned` event; in both
cases the invocation leaves the live table. -/
theorem returned_exactly_on_normal_exit (r : Recorder) (id : Nat)
    (inv : Invocation) (name : String) (v : Value)
    (hlook : lookupLive r.live id = some inv)
    (hnr : NoReturned inv.events) :
    (r.onExit id (some (name, v))).completed =
      r.completed ++
        [{ inv with
            events := inv.events ++
              [LifecycleEvent.mk name ChangeType.returned v
                inv.events.length] }] ∧
    countReturned
      (inv.events ++
        [LifecycleEvent.mk name ChangeType.returned v
          inv.events.length]) = 1 ∧
    lookupLive (r.onExit id (some (name, v))).live id = none ∧
    (r.onExit id none).completed = r.completed ++ [inv] ∧
    countReturned inv.events = 0 ∧
    lookupLive (r.onExit id none).live id = none := by
  refine ⟨?_, ?_, ?_, ?_, ?_, ?_⟩
  · simp [Recorder.onExit, hlook, Invocation.exitWith]
  · rw [countReturned_append_ret, countReturned_eq_zero _ hnr]
  · simp [Recorder.onExit, hlook, lookupLive_removeLive_self]
  · simp [Recorder.onExit, hlook, Invocation.exitWith]
  · exact countReturned_eq_zero _ hnr
  · simp [Recorder.onExit, hlook, lookupLive_removeLive_self]

/-- Witness for C5: exiting a freshly entered invocation. -/
theorem returned_exactly_on_normal_exit_witness :
    (Recorder.onExit
        { live := [(1, Invocation.new 1)], completed := [] }
        1 (some ("x", Value.int 5))).completed =
      [] ++
        [{ Invocation.new 1 with
            events := [] ++
              [LifecycleEvent.mk "x" ChangeType.returned (Value.int 5)
                0] }] ∧
    countReturned
      ([] ++
        [LifecycleEvent.mk "x" ChangeType.returned (Value.int 5) 0]) = 1 ∧
    lookupLive
      (Recorder.onExit
        { live := [(1, Invocation.new 1)], completed := [] }
        1 (some ("x", Value.int 5))).live 1 = none ∧
    (Recorder.onExit
        { live := [(1, Invocation.new 1)], completed := [] }
        1 none).completed = [] ++ [Invocation.new 1] ∧
    countReturned (Invocation.new 1).events = 0 ∧
    lookupLive
      (Recorder.onExit
        { live := [(1, Invocation.new 1)], completed := [] }
        1 none).live 1 = none :=
  returned_exactly_on_normal_exit
    { live := [(1, Invocation.new 1)], completed := [] }
    1 (Invocation.new 1) "x" (Value.int 5) rfl
    (fun e he => absurd he (List.not_mem_nil e))

/-- C6: `drain` returns all invocations completed so far and clears the
completed store without touching live invocations, so an immediately
repeated `drain` yields the empty sequence: nothing is duplicated and
nothing is lost. -/
theorem drain_returns_all_and_clears (r : Recorder) :
    (r.drain).1 = r.completed ∧
    ((r.drain).2).completed = [] ∧
    ((r.drain).2).live = r.live ∧
    (((r.drain).2).drain).1 = [] :=
  ⟨rfl, rfl, rfl, rfl⟩

/-- C7: `start` on an already-started session and `stop` on an
already-stopped session are no-ops that leave the session — including all
recorded invocations — entirely unchanged. -/
theorem start_stop_idempotent (s : Session) (cfg : Config) :
    (s.started = true → s.start cfg = Except.ok s) ∧
    (s.started = false → s.stop = s) := by
  constructor
  · intro h
    simp [Session.start, h]
  · intro h
    simp [Session.stop, h]

/-- Witness for C7 on concrete sessions. -/
theorem start_stop_idempotent_witness :
    Session.start
      { started := true,
        config := { modulePath := [], trackFunctions := [],
                    trackClasses := [] },
        recorder := Recorder.init }
      { modulePath := [], trackFunctions := [], trackClasses := [] } =
      Except.ok
        { started := true,
          config := { modulePath := [], trackFunctions := [],
                      trackClasses := [] },
          recorder := Recorder.init } ∧
    Session.stop
      { started := false,
        config := { modulePath := [], trackFunctions := [],
                    trackClasses := [] },
        recorder := Recorder.init } =
      { started := false,
        config := { modulePath := [], trackFunctions := [],
                    trackClasses := [] },
        recorder := Recorder.init } :=
  ⟨(start_stop_idempotent _ _).1 rfl,
   (start_stop_idempotent
      { started := false,
        config := { modulePath := [], trackFunctions := [],
                    trackClasses := [] },
        recorder := Recorder.init }
      { modulePath := [], trackFunctions := [], trackClasses := [] }).2
     rfl⟩

/-- C8: `onObserve` and `onExit` with an invocation id that is not live
are silent no-ops: no error is raised and the recorder state — live and
completed — is entirely unchanged. -/
theorem unknown_id_silent_noop (r : Recorder) (id : Nat) (name : String)
    (v : Value) (ret : Option (String × Value))
    (h : lookupLive r.live id = none) :
    r.onObserve id name v = r ∧ r.onExit id ret = r := by
  constructor
  · simp [Recorder.onObserve, h]
  · simp [Recorder.onExit, h]

/-- Witness for C8: the initial recorder has no live invocation 7. -/
theorem unknown_id_silent_noop_witness :
    Recorder.init.onObserve 7 "x" (Value.int 0) = Recorder.init ∧
    Recorder.init.onExit 7 none = Recorder.init :=
  unknown_id_silent_noop Recorder.init 7 "x" (Value.int 0) none rfl

/-- C9: operations addressed to one live invocation leave every other
live invocation — its variable states and its events — unchanged, and
`onObserve` never touches completed records: distinct invocation ids
never cross-contaminate. -/
theorem distinct_invocations_independent (r : Recorder) (id₁ id₂ : Nat)
    (name : String) (v : Value) (ret : Option (String × Value))
    (h : id₁ ≠ id₂) :
    lookupLive (r.onObserve id₁ name v).live id₂ = lookupLive r.live id₂ ∧
    lookupLive (r.onExit id₁ ret).live id₂ = lookupLive r.live id₂ ∧
    (r.onObserve id₁ name v).completed = r.completed := by
  refine ⟨?_, ?_, ?_⟩
  · unfold Recorder.onObserve
    cases hl : lookupLive r.live id₁ with
    | none => rfl
    | some inv => exact lookupLive_updateLive_ne _ _ _ _ h
  · unfold Recorder.onExit
    cases hl : lookupLive r.live id₁ with
    | none => rfl
    | some inv => exact lookupLive_removeLive_ne _ _ _ h
  · unfold Recorder.onObserve
    cases hl : lookupLive r.live id₁ with
    | none => rfl
    | some inv => rfl

/-- Witness for C9 on a recorder with two live invocations of the same
callable. -/
theorem distinct_invocations_independent_witness :
    lookupLive
      (Recorder.onObserve
        { live := [(1, Invocation.new 1), (2, Invocation.new 2)],
          completed := [] } 1 "x" (Value.int 3)).live 2 =
      lookupLive [(1, Invocation.new 1), (2, Invocation.new 2)] 2 ∧
    lookupLive
      (Recorder.onExit
        { live := [(1, Invocation.new 1), (2, Invocation.new 2)],
          completed := [] } 1 none).live 2 =
      lookupLive [(1, Invocation.new 1), (2, Invocation.new 2)] 2 ∧
    (Recorder.onObserve
        { live := [(1, Invocation.new 1), (2, Invocation.new 2)],
          completed := [] } 1 "x" (Value.int 3)).completed = [] :=
  distinct_invocations_independent
    { live := [(1, Invocation.new 1), (2, Invocation.new 2)],
      completed := [] }
    1 2 "x" (Value.int 3) none (by decide)

/-- C10: when both the function selection and the class selection are
empty, every location inside the configured root module path is tracked
and every location outside it is not. -/
theorem empty_selection_tracks_all_in_root (cfg : Config)
    (loc : List String) (hf : cfg.trackFunctions = [])
    (hc : cfg.trackClasses = []) :
    shouldTrack cfg loc = inRootModule cfg.modulePath loc := by
  unfold shouldTrack
  rw [hf, hc]
  simp

/-- Witness for C10: with empty selections, a location under the root
module `python` is tracked and a location outside it is not. -/
theorem empty_selection_tracks_all_in_root_witness :
    shouldTrack
      { modulePath := ["python"], trackFunctions := [],
        trackClasses := [] } ["python", "file", "calc"] = true ∧
    shouldTrack
      { modulePath := ["python"], trackFunctions := [],
        trackClasses := [] } ["numpy", "core", "mul"] = false :=
  ⟨(empty_selection_tracks_all_in_root
      { modulePath := ["python"], trackFunctions := [], trackClasses := [] }
      ["python", "file", "calc"] rfl rfl).trans (by decide),
   (empty_selection_tracks_all_in_root
      { modulePath := ["python"], trackFunctions := [], trackClasses := [] }
      ["numpy", "core", "mul"] rfl rfl).trans (by decide)⟩

end VariableTracker
